import Mathlib

/-!
Shallow embedding of the `uuid` Go package (RFC 4122 version-1 identifiers).

Machine integers are modelled as `Nat` (with `% 2^w` at the points where the
source performs a narrowing conversion such as `uint8(...)`), and the signed
64-bit nanosecond timestamps as `Int` with Go's truncated division.  The
process-wide generator globals `clockSeqAndNode`, `clockSeq` and `nodeRand`
become an explicit `GenState` record threaded through the operations.  The
random sources (`crypto/rand.Read`, `math/rand.Int31n`) are nondeterministic,
so their outputs are oracle parameters of the operations that consume them.
An identifier (`UUID`, a 16-byte slice in the source) is a `List Nat` of
byte values.
-/

namespace Uuid

/-- Gregorian-to-Unix epoch offset in 100ns ticks, `gregorianEpoch` in the source. -/
def gregorianEpoch : Int := 0x01B21DD213814000

/-- Converts a Unix Epoch timestamp of nanosecond precision to Gregorian Epoch:
`func fromUnixNano(ts int64) int64 { return (ts / 100) + gregorianEpoch }`.
Go's `/` on `int64` truncates toward zero, i.e. `Int.tdiv`. -/
def fromUnixNano (ts : Int) : Int := ts.tdiv 100 + gregorianEpoch

/-- Converts a Gregorian Epoch timestamp back to Unix Epoch:
`func toUnixNano(ts int64) int64 { return (ts - gregorianEpoch) * 100 }`. -/
def toUnixNano (ts : Int) : Int := (ts - gregorianEpoch) * 100

/-- The two's-complement (as a natural number below `2^64`) representation of
an `int64` value; Go's shift-and-mask field extractions in `New`/`NewCrypto`
operate on this representation. -/
def rep64 (x : Int) : Nat := (x % (2 ^ 64 : Int)).toNat

/-- The generator's process-wide mutable globals. -/
structure GenState where
  clockSeqAndNode : Nat
  clockSeq : Nat
  nodeRand : Nat
  deriving Repr, DecidableEq

/-- Big-endian `binary.BigEndian.PutUint64`: the eight bytes of a 64-bit value,
most significant first (`byte(v >> 56)`, ..., `byte(v)`). -/
def putUint64BE (v : Nat) : List Nat :=
  [v >>> 56 % 256, v >>> 48 % 256, v >>> 40 % 256, v >>> 32 % 256,
   v >>> 24 % 256, v >>> 16 % 256, v >>> 8 % 256, v % 256]

/-- Big-endian `binary.BigEndian.PutUint32`. -/
def putUint32BE (v : Nat) : List Nat :=
  [v >>> 24 % 256, v >>> 16 % 256, v >>> 8 % 256, v % 256]

/-- Big-endian `binary.BigEndian.PutUint16`. -/
def putUint16BE (v : Nat) : List Nat :=
  [v >>> 8 % 256, v % 256]

/-- Byte access `u[i]` on an identifier (all uses in the source are in range). -/
def byteAt (u : List Nat) (i : Nat) : Nat := u.getD i 0

/-- `binary.BigEndian.Uint16(u[i:i+2])` = `uint16(b[1]) | uint16(b[0])<<8`. -/
def beUint16 (u : List Nat) (i : Nat) : Nat :=
  byteAt u (i + 1) ||| byteAt u i <<< 8

/-- `binary.BigEndian.Uint32(b)` over four byte values,
`uint32(b[3]) | uint32(b[2])<<8 | uint32(b[1])<<16 | uint32(b[0])<<24`. -/
def beUint32Of (b0 b1 b2 b3 : Nat) : Nat :=
  b3 ||| b2 <<< 8 ||| b1 <<< 16 ||| b0 <<< 24

/-- `binary.BigEndian.Uint64(u[i:i+8])`. -/
def beUint64 (u : List Nat) (i : Nat) : Nat :=
  byteAt u (i + 7) ||| byteAt u (i + 6) <<< 8 ||| byteAt u (i + 5) <<< 16 |||
    byteAt u (i + 4) <<< 24 ||| byteAt u (i + 3) <<< 32 ||| byteAt u (i + 2) <<< 40 |||
    byteAt u (i + 1) <<< 48 ||| byteAt u i <<< 56

/-- The package `init` function.  Its eight cryptographically random bytes
`randBuf[0..7]` are the oracle inputs `b0..b7`.  The source sets the variant
inside the clock sequence (`randBuf[0] = uint8(randBuf[0]&0x1f | 1<<5)`),
forces the 'local' and 'multicast' bits of the MAC replacement
(`randBuf[2] = uint8((randBuf[2] << 2) | 0x03)`), and then derives
`clockSeqAndNode`, `clockSeq` and `nodeRand` from the big-endian 64-bit view. -/
def init (b0 b1 b2 b3 b4 b5 b6 b7 : Nat) : GenState :=
  let r0 := (b0 &&& 0x1f ||| 1 <<< 5) % 256
  let r2 := (b2 <<< 2 ||| 0x03) % 256
  let clockSeqAndNode :=
    b7 ||| b6 <<< 8 ||| b5 <<< 16 ||| b4 <<< 24 ||| b3 <<< 32 |||
      r2 <<< 40 ||| b1 <<< 48 ||| r0 <<< 56
  { clockSeqAndNode := clockSeqAndNode
    clockSeq := clockSeqAndNode >>> 48 &&& 0x1fff
    nodeRand := clockSeqAndNode &&& 0xffff }

/-- `SetNodeId(nodeId uint32) error`.  The returned `Bool` is `true` exactly
when the source returns a non-nil error (`nodeId>>30 != 0`); the assignment to
`clockSeqAndNode` happens unconditionally before that check. -/
def SetNodeId (s : GenState) (nodeId : Nat) : GenState × Bool :=
  ({ s with clockSeqAndNode :=
      s.clockSeqAndNode &&& 0xffff03000000ffff |||
        ((nodeId &&& 0x3f000000) <<< 2 ||| nodeId &&& 0x00ffffff) <<< 16 },
   decide (nodeId >>> 30 ≠ 0))

/-- `NodeId() uint32`: reconstruct the 30-bit node id from the packed state. -/
def NodeId (s : GenState) : Nat :=
  let nodeId := s.clockSeqAndNode >>> 16
  nodeId &&& 0x00ffffff ||| (nodeId &&& 0xfc000000) >>> 2

/-- The timestamp bytes 0..7 shared by `New` and `NewCrypto`: with
`ts := fromUnixNano(timeNow().UTC().UnixNano())`, the source writes
`PutUint32(uuid[0:4], uint32(ts&0xffffffff))`,
`PutUint16(uuid[4:6], uint16((ts>>32)&0xffff))` and
`PutUint16(uuid[6:8], uint16((ts>>48)&0x0fff) | 1<<12)`; `g` below is the
two's-complement representation of the `int64` tick count `ts`. -/
def timeBytes (now : Int) : List Nat :=
  let g := rep64 (fromUnixNano now)
  putUint32BE (g &&& 0xffffffff) ++
    putUint16BE (g >>> 32 &&& 0xffff) ++
    putUint16BE (g >>> 48 &&& 0x0fff ||| 1 <<< 12)

/-- `New() UUID`, the fast-path generator.  `now` is the oracle for
`timeNow().UTC().UnixNano()` and `rnd` for `mrand.Int31n(0x10000)` (consumed,
through the `uint16` conversion, only when the clock sequence rolls over).
Returns the updated globals together with the produced identifier. -/
def New (s : GenState) (rnd : Nat) (now : Int) : GenState × List Nat :=
  let clockSeq := (s.clockSeq + 1) &&& 0x1fff
  let nodeRand := if clockSeq = 0 then rnd % 0x10000 else s.nodeRand
  let clockSeqAndNode :=
    s.clockSeqAndNode &&& 0xe000ffffffff0000 ||| clockSeq <<< 48 ||| nodeRand
  (⟨clockSeqAndNode, clockSeq, nodeRand⟩,
    timeBytes now ++ putUint64BE clockSeqAndNode)

/-- `NewCrypto() UUID`.  The ring-buffer cursor bookkeeping only selects which
four cryptographically random buffer bytes feed the call; those four bytes
`r0..r3` are the oracle inputs, combined as `val := binary.BigEndian.Uint32`.
The source then takes `clockSeq = uint16((val >> 16) & 0x1fff)` and
`nodeRand = uint16(val & 0xffff)` and repacks exactly as `New` does. -/
def NewCrypto (s : GenState) (r0 r1 r2 r3 : Nat) (now : Int) : GenState × List Nat :=
  let val := beUint32Of r0 r1 r2 r3
  let clockSeq := val >>> 16 &&& 0x1fff
  let nodeRand := val &&& 0xffff
  let clockSeqAndNode :=
    s.clockSeqAndNode &&& 0xe000ffffffff0000 ||| clockSeq <<< 48 ||| nodeRand
  (⟨clockSeqAndNode, clockSeq, nodeRand⟩,
    timeBytes now ++ putUint64BE clockSeqAndNode)

/-- `(u UUID) NodeId() uint32`: same reconstruction as the package-level
`NodeId`, from bytes 8..15 of the identifier. -/
def UUID.NodeId (u : List Nat) : Nat :=
  let nodeId := beUint64 u 8 >>> 16
  nodeId &&& 0x00ffffff ||| (nodeId &&& 0xfc000000) >>> 2

/-- `(u UUID) Version() int`: top four bits of the big-endian 16-bit field at
bytes 6..7. -/
def UUID.Version (u : List Nat) : Nat :=
  (beUint16 u 6 &&& 0xf000) >>> 12

/-- `(u UUID) Variant() int`: top three bits of the big-endian 16-bit field at
bytes 8..9. -/
def UUID.Variant (u : List Nat) : Nat :=
  (beUint16 u 8 &&& 0xe000) >>> 13

/-- The lowercase hex digit table of `encoding/hex`, the string constant
`hextable = "0123456789abcdef"`. -/
def hextable : List Char := String.toList "0123456789abcdef"

/-- One output character of `encoding/hex`, `hextable[v]` for `v < 16`. -/
def hexDigit (v : Nat) : Char := hextable.getD v '0'

/-- `hex.EncodeToString`, i.e. `(u UUID) Hex() string`: each byte `v` becomes
`hextable[v>>4]` followed by `hextable[v&0x0f]`. -/
def Hex (u : List Nat) : List Char :=
  u.flatMap fun v => [hexDigit (v >>> 4), hexDigit (v &&& 0x0f)]

/-- `(u UUID) String() string`: the dash-separated `8-4-4-4-12` grouping
`h[0:8] + "-" + h[8:12] + "-" + h[12:16] + "-" + h[16:20] + "-" + h[20:32]`
of the hex form `h`. -/
def UUIDString (u : List Nat) : List Char :=
  let h := Hex u
  h.take 8 ++ ['-'] ++ (h.drop 8).take 4 ++ ['-'] ++ (h.drop 12).take 4 ++
    ['-'] ++ (h.drop 16).take 4 ++ ['-'] ++ (h.drop 20).take 12

/-- `encoding/hex`'s `fromHexChar`: value of one hex digit, `none` for any
non-hex character.  Go compares the byte against the three digit ranges; here
the same comparisons are written on the character's code point, with 48..57
the codes of the digits, 97..102 of the lowercase and 65..70 of the uppercase
hex letters. -/
def fromHexChar (c : Char) : Option Nat :=
  if 48 ≤ c.toNat ∧ c.toNat ≤ 57 then some (c.toNat - 48)
  else if 97 ≤ c.toNat ∧ c.toNat ≤ 102 then some (c.toNat - 97 + 10)
  else if 65 ≤ c.toNat ∧ c.toNat ≤ 70 then some (c.toNat - 65 + 10)
  else none

/-- `hex.DecodeString`: decodes hex digit pairs into bytes; an invalid
character or a dangling trailing digit (odd input length) is an error. -/
def hexDecode : List Char → Option (List Nat)
  | [] => some []
  | [_] => none
  | a :: b :: rest => do
      let hi ← fromHexChar a
      let lo ← fromHexChar b
      let tail ← hexDecode rest
      pure ((hi <<< 4 ||| lo) :: tail)

/-- `hex.DecodedLen(x) = x / 2`. -/
def hexDecodedLen (x : Nat) : Nat := x / 2

/-- `NewFromString(s string) (UUID, error)`: strip every dash
(`strings.Replace(s, "-", "", -1)`), reject unless the decoded length is 16,
then hex-decode. -/
def NewFromString (s : List Char) : Option (List Nat) :=
  let digits := s.filter fun c => c ≠ '-'
  if hexDecodedLen digits.length ≠ 16 then none
  else hexDecode digits

/-- Generator states the process can actually be in: the state built by `init`
from eight random bytes, and everything reachable from it through `New`,
`NewCrypto` and `SetNodeId` (with the oracle inputs ranging over the values
their Go types allow). -/
inductive Reachable : GenState → Prop where
  | boot (b0 b1 b2 b3 b4 b5 b6 b7 : Nat) (h0 : b0 < 256) (h1 : b1 < 256)
      (h2 : b2 < 256) (h3 : b3 < 256) (h4 : b4 < 256) (h5 : b5 < 256)
      (h6 : b6 < 256) (h7 : b7 < 256) :
      Reachable (init b0 b1 b2 b3 b4 b5 b6 b7)
  | fast (s : GenState) (rnd : Nat) (now : Int) (hs : Reachable s) :
      Reachable (New s rnd now).1
  | crypto (s : GenState) (r0 r1 r2 r3 : Nat) (now : Int) (hs : Reachable s)
      (h0 : r0 < 256) (h1 : r1 < 256) (h2 : r2 < 256) (h3 : r3 < 256) :
      Reachable (NewCrypto s r0 r1 r2 r3 now).1
  | setId (s : GenState) (v : Nat) (hs : Reachable s) (hv : v < 2 ^ 32) :
      Reachable (SetNodeId s v).1

/-- Zero or more generation calls (`New` or `NewCrypto`) after a given state;
used to speak about every identifier generated after a `SetNodeId`. -/
inductive Steps : GenState → GenState → Prop where
  | refl (s : GenState) : Steps s s
  | fast (s t : GenState) (rnd : Nat) (now : Int) (h : Steps s t) :
      Steps s (New t rnd now).1
  | crypto (s t : GenState) (r0 r1 r2 r3 : Nat) (now : Int) (h : Steps s t) :
      Steps s (NewCrypto t r0 r1 r2 r3 now).1

/-- The concrete example bytes from the repository's tests:
`f2 54 df 4a 18 4c 10 19 80 a4 c6 1c d0 0a 68 99`. -/
def exampleUUID : List Nat :=
  [0xf2, 0x54, 0xdf, 0x4a, 0x18, 0x4c, 0x10, 0x19,
   0x80, 0xa4, 0xc6, 0x1c, 0xd0, 0x0a, 0x68, 0x99]

/-!
Bridge lemmas: the source's constant-mask bit operations, restated as
division/remainder arithmetic so that `omega` can reason about them.
-/

theorem lor_two_pow_add (a b k : Nat) (hb : b < 2 ^ k) :
    a <<< k ||| b = a * 2 ^ k + b := by
  apply Nat.eq_of_testBit_eq
  intro i
  rw [Nat.testBit_lor, Nat.testBit_shiftLeft,
    show a * 2 ^ k + b = 2 ^ k * a + b by ring, Nat.testBit_mul_pow_two_add a hb i]
  by_cases h : i < k
  · simp [h, Nat.not_le.mpr h]
  · have hb' : b < 2 ^ i :=
      lt_of_lt_of_le hb (Nat.pow_le_pow_right (by norm_num) (Nat.le_of_not_lt h))
    simp [h, Nat.le_of_not_lt h, Nat.testBit_eq_false_of_lt hb']

theorem lor_two_pow_add_comm (a b k : Nat) (hb : b < 2 ^ k) :
    b ||| a <<< k = a * 2 ^ k + b := by
  rw [Nat.lor_comm]; exact lor_two_pow_add a b k hb

theorem lor_mul_add (a b k : Nat) (hb : b < 2 ^ k) :
    a * 2 ^ k ||| b = a * 2 ^ k + b := by
  rw [← Nat.shiftLeft_eq a k, lor_two_pow_add _ _ _ hb, Nat.shiftLeft_eq]

theorem lor_mul_add_comm (a b k : Nat) (hb : b < 2 ^ k) :
    b ||| a * 2 ^ k = a * 2 ^ k + b := by
  rw [Nat.lor_comm]; exact lor_mul_add a b k hb

theorem land_shift_mask (x m k : Nat) :
    x &&& m <<< k = (x >>> k &&& m) <<< k := by
  apply Nat.eq_of_testBit_eq
  intro i
  rw [Nat.testBit_land, Nat.testBit_shiftLeft, Nat.testBit_shiftLeft]
  by_cases h : k ≤ i
  · rw [Nat.testBit_land, Nat.testBit_shiftRight, Nat.add_sub_cancel' h]
    simp [ge_iff_le, h, Bool.and_left_comm]
  · simp [ge_iff_le, h]

theorem land_lor_split (x a b : Nat) :
    x &&& (a ||| b) = x &&& a ||| x &&& b := by
  apply Nat.eq_of_testBit_eq
  intro i
  rw [Nat.testBit_land, Nat.testBit_lor, Nat.testBit_lor, Nat.testBit_land,
    Nat.testBit_land]
  cases x.testBit i <;> simp

theorem land_low (x k : Nat) : x &&& (2 ^ k - 1) = x % 2 ^ k :=
  Nat.and_pow_two_sub_one_eq_mod x k

theorem land_0x1f (x : Nat) : x &&& 0x1f = x % 2 ^ 5 := by
  rw [show (0x1f : Nat) = 2 ^ 5 - 1 by norm_num, land_low]

theorem land_0x0f (x : Nat) : x &&& 0x0f = x % 2 ^ 4 := by
  rw [show (0x0f : Nat) = 2 ^ 4 - 1 by norm_num, land_low]

theorem land_0x0fff (x : Nat) : x &&& 0x0fff = x % 2 ^ 12 := by
  rw [show (0x0fff : Nat) = 2 ^ 12 - 1 by norm_num, land_low]

theorem land_0x1fff (x : Nat) : x &&& 0x1fff = x % 2 ^ 13 := by
  rw [show (0x1fff : Nat) = 2 ^ 13 - 1 by norm_num, land_low]

theorem land_0xffff (x : Nat) : x &&& 0xffff = x % 2 ^ 16 := by
  rw [show (0xffff : Nat) = 2 ^ 16 - 1 by norm_num, land_low]

theorem land_0xffffff (x : Nat) : x &&& 0x00ffffff = x % 2 ^ 24 := by
  rw [show (0x00ffffff : Nat) = 2 ^ 24 - 1 by norm_num, land_low]

theorem land_0x3fffffff (x : Nat) : x &&& 0x3fffffff = x % 2 ^ 30 := by
  rw [show (0x3fffffff : Nat) = 2 ^ 30 - 1 by norm_num, land_low]

theorem land_0xffffffff (x : Nat) : x &&& 0xffffffff = x % 2 ^ 32 := by
  rw [show (0xffffffff : Nat) = 2 ^ 32 - 1 by norm_num, land_low]

theorem land_mid_mask (x j k : Nat) :
    x &&& (2 ^ j - 1) <<< k = x / 2 ^ k % 2 ^ j * 2 ^ k := by
  rw [land_shift_mask, land_low, Nat.shiftRight_eq_div_pow, Nat.shiftLeft_eq]

theorem land_0x3f000000 (x : Nat) :
    x &&& 0x3f000000 = x / 2 ^ 24 % 2 ^ 6 * 2 ^ 24 := by
  rw [show (0x3f000000 : Nat) = (2 ^ 6 - 1) <<< 24 by decide, land_mid_mask]

theorem land_0xfc000000 (x : Nat) :
    x &&& 0xfc000000 = x / 2 ^ 26 % 2 ^ 6 * 2 ^ 26 := by
  rw [show (0xfc000000 : Nat) = (2 ^ 6 - 1) <<< 26 by decide, land_mid_mask]

theorem land_0xf000 (x : Nat) :
    x &&& 0xf000 = x / 2 ^ 12 % 2 ^ 4 * 2 ^ 12 := by
  rw [show (0xf000 : Nat) = (2 ^ 4 - 1) <<< 12 by decide, land_mid_mask]

theorem land_0xe000 (x : Nat) :
    x &&& 0xe000 = x / 2 ^ 13 % 2 ^ 3 * 2 ^ 13 := by
  rw [show (0xe000 : Nat) = (2 ^ 3 - 1) <<< 13 by decide, land_mid_mask]

theorem land_genMask (x : Nat) :
    x &&& 0xe000ffffffff0000
      = x / 2 ^ 61 % 2 ^ 3 * 2 ^ 61 + x / 2 ^ 16 % 2 ^ 32 * 2 ^ 16 := by
  rw [show (0xe000ffffffff0000 : Nat) = (2 ^ 3 - 1) <<< 61 ||| (2 ^ 32 - 1) <<< 16 by
      decide,
    land_lor_split, land_mid_mask, land_mid_mask]
  have h : x / 2 ^ 16 % 2 ^ 32 * 2 ^ 16 < 2 ^ 61 := by
    have := Nat.mod_lt (x / 2 ^ 16) (y := 2 ^ 32) (by norm_num)
    nlinarith
  exact lor_mul_add _ _ _ h

theorem land_setMask (x : Nat) :
    x &&& 0xffff03000000ffff
      = x / 2 ^ 48 % 2 ^ 16 * 2 ^ 48 + x / 2 ^ 40 % 2 ^ 2 * 2 ^ 40 + x % 2 ^ 16 := by
  rw [show (0xffff03000000ffff : Nat)
        = (2 ^ 16 - 1) <<< 48 ||| ((2 ^ 2 - 1) <<< 40 ||| (2 ^ 16 - 1)) by decide,
    land_lor_split, land_lor_split, land_mid_mask, land_mid_mask, land_low]
  have h1 : x % 2 ^ 16 < 2 ^ 40 := lt_of_lt_of_le (Nat.mod_lt _ (by norm_num)) (by norm_num)
  rw [lor_mul_add _ _ _ h1]
  have h2 : x / 2 ^ 40 % 2 ^ 2 * 2 ^ 40 + x % 2 ^ 16 < 2 ^ 48 := by
    have := Nat.mod_lt (x / 2 ^ 40) (y := 2 ^ 2) (by norm_num)
    have := Nat.mod_lt x (y := 2 ^ 16) (by norm_num)
    nlinarith
  rw [lor_mul_add _ _ _ h2, Nat.add_assoc]

theorem lor_chunk (xh xl yh yl k : Nat) (hx : xl < 2 ^ k) (hy : yl < 2 ^ k) :
    (xh * 2 ^ k + xl) ||| (yh * 2 ^ k + yl) = (xh ||| yh) * 2 ^ k + (xl ||| yl) := by
  apply Nat.eq_of_testBit_eq
  intro i
  rw [Nat.testBit_lor, show xh * 2 ^ k + xl = 2 ^ k * xh + xl by ring,
    show yh * 2 ^ k + yl = 2 ^ k * yh + yl by ring,
    show (xh ||| yh) * 2 ^ k + (xl ||| yl) = 2 ^ k * (xh ||| yh) + (xl ||| yl) by ring,
    Nat.testBit_mul_pow_two_add _ hx, Nat.testBit_mul_pow_two_add _ hy,
    Nat.testBit_mul_pow_two_add _ (Nat.or_lt_two_pow hx hy)]
  by_cases h : i < k <;> simp [h, Nat.testBit_lor]

/-!
Closed arithmetic forms of the source's packing and unpacking expressions.
-/

theorem beBytes16 (b0 b1 : Nat) (h1 : b1 < 256) :
    b1 ||| b0 <<< 8 = b0 * 2 ^ 8 + b1 :=
  lor_two_pow_add_comm _ _ _ h1

theorem beBytes32 (b0 b1 b2 b3 : Nat)
    (h1 : b1 < 256) (h2 : b2 < 256) (h3 : b3 < 256) :
    b3 ||| b2 <<< 8 ||| b1 <<< 16 ||| b0 <<< 24
      = b0 * 2 ^ 24 + b1 * 2 ^ 16 + b2 * 2 ^ 8 + b3 := by
  rw [lor_two_pow_add_comm _ _ _ (show b3 < 2 ^ 8 by omega),
    lor_two_pow_add_comm _ _ _ (show b2 * 2 ^ 8 + b3 < 2 ^ 16 by omega),
    lor_two_pow_add_comm _ _ _
      (show b1 * 2 ^ 16 + (b2 * 2 ^ 8 + b3) < 2 ^ 24 by omega)]
  ring

theorem beBytes64 (b0 b1 b2 b3 b4 b5 b6 b7 : Nat)
    (h1 : b1 < 256) (h2 : b2 < 256) (h3 : b3 < 256) (h4 : b4 < 256)
    (h5 : b5 < 256) (h6 : b6 < 256) (h7 : b7 < 256) :
    b7 ||| b6 <<< 8 ||| b5 <<< 16 ||| b4 <<< 24 ||| b3 <<< 32 |||
        b2 <<< 40 ||| b1 <<< 48 ||| b0 <<< 56
      = b0 * 2 ^ 56 + b1 * 2 ^ 48 + b2 * 2 ^ 40 + b3 * 2 ^ 32 +
        b4 * 2 ^ 24 + b5 * 2 ^ 16 + b6 * 2 ^ 8 + b7 := by
  rw [lor_two_pow_add_comm _ _ _ (show b7 < 2 ^ 8 by omega),
    lor_two_pow_add_comm _ _ _ (show b6 * 2 ^ 8 + b7 < 2 ^ 16 by omega),
    lor_two_pow_add_comm _ _ _
      (show b5 * 2 ^ 16 + (b6 * 2 ^ 8 + b7) < 2 ^ 24 by omega),
    lor_two_pow_add_comm _ _ _
      (show b4 * 2 ^ 24 + (b5 * 2 ^ 16 + (b6 * 2 ^ 8 + b7)) < 2 ^ 32 by omega),
    lor_two_pow_add_comm _ _ _
      (show b3 * 2 ^ 32 + (b4 * 2 ^ 24 + (b5 * 2 ^ 16 + (b6 * 2 ^ 8 + b7))) < 2 ^ 40 by
        omega),
    lor_two_pow_add_comm _ _ _
      (show b2 * 2 ^ 40 +
            (b3 * 2 ^ 32 + (b4 * 2 ^ 24 + (b5 * 2 ^ 16 + (b6 * 2 ^ 8 + b7)))) < 2 ^ 48 by
        omega),
    lor_two_pow_add_comm _ _ _
      (show b1 * 2 ^ 48 + (b2 * 2 ^ 40 +
            (b3 * 2 ^ 32 + (b4 * 2 ^ 24 + (b5 * 2 ^ 16 + (b6 * 2 ^ 8 + b7))))) < 2 ^ 56 by
        omega)]
  ring

theorem lor_chunk_highzero (xh xl yl k : Nat) (hxl : xl < 2 ^ k) (hyl : yl < 2 ^ k) :
    (xh * 2 ^ k + xl) ||| yl = xh * 2 ^ k + (xl ||| yl) := by
  have h := lor_chunk xh xl 0 yl k hxl hyl
  simpa using h

theorem lor_chunk_lowzero (xh xl yh k : Nat) (hxl : xl < 2 ^ k) :
    (xh * 2 ^ k + xl) ||| yh * 2 ^ k = (xh ||| yh) * 2 ^ k + xl := by
  have h := lor_chunk xh xl yh 0 k hxl (pow_pos (by norm_num) k)
  simpa using h

theorem repack_closed (x c n : Nat) (hc : c < 2 ^ 13) (hn : n < 2 ^ 16) :
    x &&& 0xe000ffffffff0000 ||| c <<< 48 ||| n
      = x / 2 ^ 61 % 2 ^ 3 * 2 ^ 61 + c * 2 ^ 48 + x / 2 ^ 16 % 2 ^ 32 * 2 ^ 16 + n := by
  have hB : x / 2 ^ 16 % 2 ^ 32 < 2 ^ 32 := Nat.mod_lt _ (by norm_num)
  have e1 : x / 2 ^ 61 % 2 ^ 3 * 2 ^ 61 + x / 2 ^ 16 % 2 ^ 32 * 2 ^ 16
      = x / 2 ^ 61 % 2 ^ 3 * 2 ^ 13 * 2 ^ 48 + x / 2 ^ 16 % 2 ^ 32 * 2 ^ 16 := by ring
  rw [land_genMask, Nat.shiftLeft_eq c 48, e1,
    lor_chunk_lowzero _ _ _ _ (by nlinarith),
    lor_mul_add _ _ _ hc]
  have e2 : (x / 2 ^ 61 % 2 ^ 3 * 2 ^ 13 + c) * 2 ^ 48 + x / 2 ^ 16 % 2 ^ 32 * 2 ^ 16
      = ((x / 2 ^ 61 % 2 ^ 3 * 2 ^ 13 + c) * 2 ^ 32 + x / 2 ^ 16 % 2 ^ 32) * 2 ^ 16 + 0 := by
    ring
  rw [e2, lor_chunk_highzero _ _ _ _ (by omega) hn, Nat.zero_or]
  ring

theorem lor_five (a b l wh wl : Nat) (hb : b < 2 ^ 2) (hl : l < 2 ^ 16)
    (hwh : wh < 2 ^ 6) (hwl : wl < 2 ^ 24) :
    a * 2 ^ 48 + b * 2 ^ 40 + l ||| (wh * 2 ^ 26 + wl) * 2 ^ 16
      = a * 2 ^ 48 + wh * 2 ^ 42 + b * 2 ^ 40 + wl * 2 ^ 16 + l := by
  have e1 : a * 2 ^ 48 + b * 2 ^ 40 + l = (a * 2 ^ 32 + b * 2 ^ 24) * 2 ^ 16 + l := by ring
  have e2 : (wh * 2 ^ 26 + wl) * 2 ^ 16 = (wh * 2 ^ 2 * 2 ^ 24 + wl) * 2 ^ 16 := by ring
  rw [e1, e2, lor_chunk_lowzero _ _ _ _ hl]
  have e3 : a * 2 ^ 32 + b * 2 ^ 24 = (a * 2 ^ 8 + b) * 2 ^ 24 + 0 := by ring
  rw [e3, lor_chunk _ _ _ _ 24 (pow_pos (by norm_num) 24) hwl, Nat.zero_or,
    lor_chunk_highzero a b (wh * 2 ^ 2) 8 (by omega) (by omega),
    lor_mul_add_comm wh b 2 hb]
  ring

theorem setPack_closed (x v : Nat) :
    x &&& 0xffff03000000ffff |||
        ((v &&& 0x3f000000) <<< 2 ||| v &&& 0x00ffffff) <<< 16
      = x / 2 ^ 48 % 2 ^ 16 * 2 ^ 48 + v / 2 ^ 24 % 2 ^ 6 * 2 ^ 42 +
        x / 2 ^ 40 % 2 ^ 2 * 2 ^ 40 + v % 2 ^ 24 * 2 ^ 16 + x % 2 ^ 16 := by
  have hv24 : v % 2 ^ 24 < 2 ^ 26 :=
    lt_of_lt_of_le (Nat.mod_lt _ (by norm_num)) (by norm_num)
  rw [land_setMask, land_0x3f000000, land_0xffffff, Nat.shiftLeft_eq _ 2,
    show v / 2 ^ 24 % 2 ^ 6 * 2 ^ 24 * 2 ^ 2 = v / 2 ^ 24 % 2 ^ 6 * 2 ^ 26 by ring,
    lor_mul_add _ _ 26 hv24, Nat.shiftLeft_eq _ 16,
    lor_five _ _ _ _ _ (Nat.mod_lt _ (by norm_num)) (Nat.mod_lt _ (by norm_num))
      (Nat.mod_lt _ (by norm_num)) (Nat.mod_lt _ (by norm_num))]

/-- The generator's packed-state invariant: the three topmost bits of
`clockSeqAndNode` (the variant marker written into byte 8 of every produced
identifier) read `001`, and the two `uint16` globals are in range. -/
def Inv (s : GenState) : Prop :=
  s.clockSeqAndNode / 2 ^ 61 = 1 ∧ s.clockSeq < 2 ^ 16 ∧ s.nodeRand < 2 ^ 16

theorem lor_single_high (b k : Nat) (hb : b < 2 ^ k) : b ||| 2 ^ k = 2 ^ k + b := by
  have h := lor_mul_add_comm 1 b k hb
  simpa using h

theorem init_csan_closed (b0 b1 b2 b3 b4 b5 b6 b7 : Nat)
    (h1 : b1 < 256) (h3 : b3 < 256) (h4 : b4 < 256)
    (h5 : b5 < 256) (h6 : b6 < 256) (h7 : b7 < 256) :
    (init b0 b1 b2 b3 b4 b5 b6 b7).clockSeqAndNode
      = (2 ^ 5 + b0 % 2 ^ 5) * 2 ^ 56 + b1 * 2 ^ 48 + (b2 * 2 ^ 2 + 3) % 256 * 2 ^ 40 +
        b3 * 2 ^ 32 + b4 * 2 ^ 24 + b5 * 2 ^ 16 + b6 * 2 ^ 8 + b7 := by
  simp only [init]
  rw [land_0x1f, show (1 : Nat) <<< 5 = 2 ^ 5 by decide,
    lor_single_high (b0 % 2 ^ 5) 5 (Nat.mod_lt _ (by norm_num)),
    show (0x03 : Nat) = 3 from rfl, lor_two_pow_add b2 3 2 (by norm_num),
    beBytes64 ((2 ^ 5 + b0 % 2 ^ 5) % 256) b1 ((b2 * 2 ^ 2 + 3) % 256) b3 b4 b5 b6 b7
      h1 (Nat.mod_lt _ (by norm_num)) h3 h4 h5 h6 h7]
  omega

theorem inv_init (b0 b1 b2 b3 b4 b5 b6 b7 : Nat)
    (h0 : b0 < 256) (h1 : b1 < 256) (h2 : b2 < 256) (h3 : b3 < 256)
    (h4 : b4 < 256) (h5 : b5 < 256) (h6 : b6 < 256) (h7 : b7 < 256) :
    Inv (init b0 b1 b2 b3 b4 b5 b6 b7) := by
  have hc := init_csan_closed b0 b1 b2 b3 b4 b5 b6 b7 h1 h3 h4 h5 h6 h7
  refine ⟨?_, ?_, ?_⟩
  · rw [hc]; omega
  · show (init b0 b1 b2 b3 b4 b5 b6 b7).clockSeqAndNode >>> 48 &&& 0x1fff < 2 ^ 16
    rw [land_0x1fff]; have := Nat.mod_lt ((init b0 b1 b2 b3 b4 b5 b6 b7).clockSeqAndNode >>> 48)
      (y := 2 ^ 13) (by norm_num)
    omega
  · show (init b0 b1 b2 b3 b4 b5 b6 b7).clockSeqAndNode &&& 0xffff < 2 ^ 16
    rw [land_0xffff]; exact Nat.mod_lt _ (by norm_num)

theorem New_fst (s : GenState) (rnd : Nat) (now : Int) :
    (New s rnd now).1
      = ⟨s.clockSeqAndNode &&& 0xe000ffffffff0000 |||
            ((s.clockSeq + 1) &&& 0x1fff) <<< 48 |||
            (if (s.clockSeq + 1) &&& 0x1fff = 0 then rnd % 0x10000 else s.nodeRand),
          (s.clockSeq + 1) &&& 0x1fff,
          if (s.clockSeq + 1) &&& 0x1fff = 0 then rnd % 0x10000 else s.nodeRand⟩ := rfl

theorem NewCrypto_fst (s : GenState) (r0 r1 r2 r3 : Nat) (now : Int) :
    (NewCrypto s r0 r1 r2 r3 now).1
      = ⟨s.clockSeqAndNode &&& 0xe000ffffffff0000 |||
            (beUint32Of r0 r1 r2 r3 >>> 16 &&& 0x1fff) <<< 48 |||
            beUint32Of r0 r1 r2 r3 &&& 0xffff,
          beUint32Of r0 r1 r2 r3 >>> 16 &&& 0x1fff,
          beUint32Of r0 r1 r2 r3 &&& 0xffff⟩ := rfl

theorem New_nodeRand_lt (s : GenState) (rnd : Nat) (now : Int)
    (hn : s.nodeRand < 2 ^ 16) : (New s rnd now).1.nodeRand < 2 ^ 16 := by
  rw [New_fst]
  by_cases h : (s.clockSeq + 1) &&& 0x1fff = 0 <;> simp [h] <;> omega

theorem New_clockSeq_eq (s : GenState) (rnd : Nat) (now : Int) :
    (New s rnd now).1.clockSeq = (s.clockSeq + 1) % 2 ^ 13 := by
  rw [New_fst]; exact land_0x1fff _

theorem New_nodeRand_eq (s : GenState) (rnd : Nat) (now : Int) :
    (New s rnd now).1.nodeRand
      = if (s.clockSeq + 1) % 2 ^ 13 = 0 then rnd % 0x10000 else s.nodeRand := by
  rw [New_fst]
  show (if (s.clockSeq + 1) &&& 0x1fff = 0 then rnd % 0x10000 else s.nodeRand) = _
  rw [land_0x1fff]

theorem New_csan_closed (s : GenState) (rnd : Nat) (now : Int)
    (hn : s.nodeRand < 2 ^ 16) :
    (New s rnd now).1.clockSeqAndNode
      = s.clockSeqAndNode / 2 ^ 61 % 2 ^ 3 * 2 ^ 61 +
        (s.clockSeq + 1) % 2 ^ 13 * 2 ^ 48 +
        s.clockSeqAndNode / 2 ^ 16 % 2 ^ 32 * 2 ^ 16 +
        (if (s.clockSeq + 1) % 2 ^ 13 = 0 then rnd % 0x10000 else s.nodeRand) := by
  rw [New_fst]
  show s.clockSeqAndNode &&& 0xe000ffffffff0000 ||| _ ||| _ = _
  rw [land_0x1fff]
  have hn2 : (if (s.clockSeq + 1) % 2 ^ 13 = 0 then rnd % 0x10000 else s.nodeRand)
      < 2 ^ 16 := by
    split <;> omega
  rw [repack_closed _ _ _ (Nat.mod_lt _ (by norm_num)) hn2]

theorem NewCrypto_csan_closed (s : GenState) (r0 r1 r2 r3 : Nat) (now : Int) :
    (NewCrypto s r0 r1 r2 r3 now).1.clockSeqAndNode
      = s.clockSeqAndNode / 2 ^ 61 % 2 ^ 3 * 2 ^ 61 +
        beUint32Of r0 r1 r2 r3 / 2 ^ 16 % 2 ^ 13 * 2 ^ 48 +
        s.clockSeqAndNode / 2 ^ 16 % 2 ^ 32 * 2 ^ 16 +
        beUint32Of r0 r1 r2 r3 % 2 ^ 16 := by
  rw [NewCrypto_fst]
  show s.clockSeqAndNode &&& 0xe000ffffffff0000 ||| _ ||| _ = _
  rw [land_0x1fff, land_0xffff, Nat.shiftRight_eq_div_pow,
    repack_closed _ _ _ (Nat.mod_lt _ (by norm_num)) (Nat.mod_lt _ (by norm_num))]

theorem inv_New (s : GenState) (rnd : Nat) (now : Int) (hs : Inv s) :
    Inv (New s rnd now).1 := by
  obtain ⟨hv, hc, hn⟩ := hs
  refine ⟨?_, ?_, New_nodeRand_lt s rnd now hn⟩
  · rw [New_csan_closed s rnd now hn]
    have h1 : (s.clockSeq + 1) % 2 ^ 13 < 2 ^ 13 := Nat.mod_lt _ (by norm_num)
    have h2 : s.clockSeqAndNode / 2 ^ 16 % 2 ^ 32 < 2 ^ 32 := Nat.mod_lt _ (by norm_num)
    have h3 : (if (s.clockSeq + 1) % 2 ^ 13 = 0 then rnd % 0x10000 else s.nodeRand)
        < 2 ^ 16 := by
      split <;> omega
    omega
  · rw [New_clockSeq_eq]
    have := Nat.mod_lt (s.clockSeq + 1) (y := 2 ^ 13) (by norm_num)
    omega

theorem inv_NewCrypto (s : GenState) (r0 r1 r2 r3 : Nat) (now : Int) (hs : Inv s) :
    Inv (NewCrypto s r0 r1 r2 r3 now).1 := by
  obtain ⟨hv, hc, hn⟩ := hs
  refine ⟨?_, ?_, ?_⟩
  · rw [NewCrypto_csan_closed]
    have h1 : beUint32Of r0 r1 r2 r3 / 2 ^ 16 % 2 ^ 13 < 2 ^ 13 := Nat.mod_lt _ (by norm_num)
    have h2 : s.clockSeqAndNode / 2 ^ 16 % 2 ^ 32 < 2 ^ 32 := Nat.mod_lt _ (by norm_num)
    have h3 : beUint32Of r0 r1 r2 r3 % 2 ^ 16 < 2 ^ 16 := Nat.mod_lt _ (by norm_num)
    omega
  · rw [NewCrypto_fst]
    show beUint32Of r0 r1 r2 r3 >>> 16 &&& 0x1fff < 2 ^ 16
    rw [land_0x1fff]
    have := Nat.mod_lt (beUint32Of r0 r1 r2 r3 >>> 16) (y := 2 ^ 13) (by norm_num)
    omega
  · rw [NewCrypto_fst]
    show beUint32Of r0 r1 r2 r3 &&& 0xffff < 2 ^ 16
    rw [land_0xffff]; exact Nat.mod_lt _ (by norm_num)

theorem SetNodeId_csan_closed (s : GenState) (v : Nat) :
    (SetNodeId s v).1.clockSeqAndNode
      = s.clockSeqAndNode / 2 ^ 48 % 2 ^ 16 * 2 ^ 48 + v / 2 ^ 24 % 2 ^ 6 * 2 ^ 42 +
        s.clockSeqAndNode / 2 ^ 40 % 2 ^ 2 * 2 ^ 40 + v % 2 ^ 24 * 2 ^ 16 +
        s.clockSeqAndNode % 2 ^ 16 := by
  show s.clockSeqAndNode &&& 0xffff03000000ffff ||| _ = _
  exact setPack_closed s.clockSeqAndNode v

theorem inv_SetNodeId (s : GenState) (v : Nat) (hs : Inv s) :
    Inv (SetNodeId s v).1 := by
  obtain ⟨hv, hc, hn⟩ := hs
  refine ⟨?_, hc, hn⟩
  rw [SetNodeId_csan_closed]
  have e : s.clockSeqAndNode / 2 ^ 48 / 2 ^ 13 = s.clockSeqAndNode / 2 ^ 61 := by
    rw [Nat.div_div_eq_div_mul]; norm_num
  have h5 : 2 ^ 13 ≤ s.clockSeqAndNode / 2 ^ 48 % 2 ^ 16 := by omega
  have h6 : s.clockSeqAndNode / 2 ^ 48 % 2 ^ 16 < 2 ^ 14 := by omega
  set T := s.clockSeqAndNode / 2 ^ 48 % 2 ^ 16 with hT
  have h1 : v / 2 ^ 24 % 2 ^ 6 < 2 ^ 6 := Nat.mod_lt _ (by norm_num)
  set W := v / 2 ^ 24 % 2 ^ 6 with hW
  have h2 : v % 2 ^ 24 < 2 ^ 24 := Nat.mod_lt _ (by norm_num)
  set L2 := v % 2 ^ 24 with hL2
  have h3 : s.clockSeqAndNode / 2 ^ 40 % 2 ^ 2 < 2 ^ 2 := Nat.mod_lt _ (by norm_num)
  set B := s.clockSeqAndNode / 2 ^ 40 % 2 ^ 2 with hB
  have h4 : s.clockSeqAndNode % 2 ^ 16 < 2 ^ 16 := Nat.mod_lt _ (by norm_num)
  set L := s.clockSeqAndNode % 2 ^ 16 with hL
  clear_value T W L2 B L
  clear hT hW hL2 hB hL e hv
  omega

theorem reachable_inv (s : GenState) (h : Reachable s) : Inv s := by
  induction h with
  | boot b0 b1 b2 b3 b4 b5 b6 b7 h0 h1 h2 h3 h4 h5 h6 h7 =>
      exact inv_init b0 b1 b2 b3 b4 b5 b6 b7 h0 h1 h2 h3 h4 h5 h6 h7
  | fast s rnd now hs ih => exact inv_New s rnd now ih
  | crypto s r0 r1 r2 r3 now hs h0 h1 h2 h3 ih => exact inv_NewCrypto s r0 r1 r2 r3 now ih
  | setId s v hs hv ih => exact inv_SetNodeId s v ih


/-!
Accessor values on a freshly generated identifier
`timeBytes now ++ putUint64BE w` (with `w` the packed 64-bit state written
into bytes 8..15).
-/

theorem byteAt_gen8 (now : Int) (w : Nat) :
    byteAt (timeBytes now ++ putUint64BE w) 8 = w >>> 56 % 256 := rfl

theorem byteAt_gen9 (now : Int) (w : Nat) :
    byteAt (timeBytes now ++ putUint64BE w) 9 = w >>> 48 % 256 := rfl

theorem Version_gen (now : Int) (w : Nat) :
    UUID.Version (timeBytes now ++ putUint64BE w) = 1 := by
  have hz : rep64 (fromUnixNano now) >>> 48 &&& 0x0fff ||| 1 <<< 12
      = 2 ^ 12 + rep64 (fromUnixNano now) >>> 48 % 2 ^ 12 := by
    rw [land_0x0fff, show (1 : Nat) <<< 12 = 2 ^ 12 by decide]
    exact lor_single_high _ 12 (Nat.mod_lt _ (by norm_num))
  show (((rep64 (fromUnixNano now) >>> 48 &&& 0x0fff ||| 1 <<< 12) % 256 |||
      ((rep64 (fromUnixNano now) >>> 48 &&& 0x0fff ||| 1 <<< 12) >>> 8 % 256) <<< 8)
        &&& 0xf000) >>> 12 = 1
  rw [hz, beBytes16 _ _ (Nat.mod_lt _ (by norm_num)), land_0xf000]
  simp only [Nat.shiftRight_eq_div_pow]
  have h : rep64 (fromUnixNano now) / 2 ^ 48 % 2 ^ 12 < 2 ^ 12 := Nat.mod_lt _ (by norm_num)
  set m := rep64 (fromUnixNano now) / 2 ^ 48 % 2 ^ 12 with hm
  clear_value m
  omega

theorem Variant_top3 (u : List Nat) (h8 : byteAt u 8 < 256) (h9 : byteAt u 9 < 256) :
    UUID.Variant u = byteAt u 8 / 2 ^ 5 := by
  show ((byteAt u 9 ||| byteAt u 8 <<< 8) &&& 0xe000) >>> 13 = _
  rw [beBytes16 _ _ h9, land_0xe000]
  simp only [Nat.shiftRight_eq_div_pow]
  omega

theorem Variant_gen (now : Int) (w : Nat) (hw : w / 2 ^ 61 = 1) :
    UUID.Variant (timeBytes now ++ putUint64BE w) = 1 := by
  rw [Variant_top3 _ (byteAt_gen8 now w ▸ Nat.mod_lt _ (by norm_num))
      (byteAt_gen9 now w ▸ Nat.mod_lt _ (by norm_num)),
    byteAt_gen8, Nat.shiftRight_eq_div_pow]
  have e : w / 2 ^ 56 / 2 ^ 5 = w / 2 ^ 61 := by
    rw [Nat.div_div_eq_div_mul]; norm_num
  omega

theorem beUint64_gen (now : Int) (w : Nat) (hw : w < 2 ^ 64) :
    beUint64 (timeBytes now ++ putUint64BE w) 8 = w := by
  show w % 256 ||| (w >>> 8 % 256) <<< 8 ||| (w >>> 16 % 256) <<< 16 |||
      (w >>> 24 % 256) <<< 24 ||| (w >>> 32 % 256) <<< 32 ||| (w >>> 40 % 256) <<< 40 |||
      (w >>> 48 % 256) <<< 48 ||| (w >>> 56 % 256) <<< 56 = w
  rw [beBytes64 _ _ _ _ _ _ _ _ (Nat.mod_lt _ (by norm_num)) (Nat.mod_lt _ (by norm_num))
    (Nat.mod_lt _ (by norm_num)) (Nat.mod_lt _ (by norm_num)) (Nat.mod_lt _ (by norm_num))
    (Nat.mod_lt _ (by norm_num)) (Nat.mod_lt _ (by norm_num))]
  simp only [Nat.shiftRight_eq_div_pow]
  omega

theorem nodeBits_closed (x : Nat) :
    x >>> 16 &&& 0x00ffffff ||| (x >>> 16 &&& 0xfc000000) >>> 2
      = x / 2 ^ 42 % 2 ^ 6 * 2 ^ 24 + x / 2 ^ 16 % 2 ^ 24 := by
  rw [land_0xffffff, land_0xfc000000]
  simp only [Nat.shiftRight_eq_div_pow]
  rw [Nat.div_div_eq_div_mul, show (2 : Nat) ^ 16 * 2 ^ 26 = 2 ^ 42 by norm_num,
    show x / 2 ^ 42 % 2 ^ 6 * 2 ^ 26 / 2 ^ 2 = x / 2 ^ 42 % 2 ^ 6 * 2 ^ 24 by omega,
    lor_mul_add_comm _ _ _ (Nat.mod_lt _ (by norm_num))]

theorem NodeId_closed (s : GenState) :
    NodeId s = s.clockSeqAndNode / 2 ^ 42 % 2 ^ 6 * 2 ^ 24 +
      s.clockSeqAndNode / 2 ^ 16 % 2 ^ 24 :=
  nodeBits_closed s.clockSeqAndNode

theorem UUIDNodeId_gen (now : Int) (w : Nat) (hw : w < 2 ^ 64) :
    UUID.NodeId (timeBytes now ++ putUint64BE w)
      = w / 2 ^ 42 % 2 ^ 6 * 2 ^ 24 + w / 2 ^ 16 % 2 ^ 24 := by
  show beUint64 (timeBytes now ++ putUint64BE w) 8 >>> 16 &&& 0x00ffffff |||
      (beUint64 (timeBytes now ++ putUint64BE w) 8 >>> 16 &&& 0xfc000000) >>> 2 = _
  rw [beUint64_gen now w hw]
  exact nodeBits_closed w


/-!
Field extraction from the repacked 64-bit sums, and preservation of the
node id across generation calls.
-/

theorem repackSum_bits (a c b n : Nat) (ha : a < 2 ^ 3) (hc : c < 2 ^ 13)
    (hb : b < 2 ^ 32) (hn : n < 2 ^ 16) :
    (a * 2 ^ 61 + c * 2 ^ 48 + b * 2 ^ 16 + n) / 2 ^ 42 % 2 ^ 6 = b / 2 ^ 26 % 2 ^ 6 ∧
    (a * 2 ^ 61 + c * 2 ^ 48 + b * 2 ^ 16 + n) / 2 ^ 16 % 2 ^ 24 = b % 2 ^ 24 ∧
    (a * 2 ^ 61 + c * 2 ^ 48 + b * 2 ^ 16 + n) / 2 ^ 48 % 2 ^ 13 = c := by
  refine ⟨?_, ?_, ?_⟩ <;> omega

theorem setSum_bits (t wh b2 wl l : Nat) (ht : t < 2 ^ 16) (hwh : wh < 2 ^ 6)
    (hb2 : b2 < 2 ^ 2) (hwl : wl < 2 ^ 24) (hl : l < 2 ^ 16) :
    (t * 2 ^ 48 + wh * 2 ^ 42 + b2 * 2 ^ 40 + wl * 2 ^ 16 + l) / 2 ^ 42 % 2 ^ 6 = wh ∧
    (t * 2 ^ 48 + wh * 2 ^ 42 + b2 * 2 ^ 40 + wl * 2 ^ 16 + l) / 2 ^ 16 % 2 ^ 24 = wl ∧
    (t * 2 ^ 48 + wh * 2 ^ 42 + b2 * 2 ^ 40 + wl * 2 ^ 16 + l) / 2 ^ 48 % 2 ^ 16 = t ∧
    (t * 2 ^ 48 + wh * 2 ^ 42 + b2 * 2 ^ 40 + wl * 2 ^ 16 + l) / 2 ^ 40 % 2 ^ 2 = b2 ∧
    (t * 2 ^ 48 + wh * 2 ^ 42 + b2 * 2 ^ 40 + wl * 2 ^ 16 + l) % 2 ^ 16 = l := by
  refine ⟨?_, ?_, ?_, ?_, ?_⟩ <;> omega

theorem NewCrypto_nodeRand_lt (s : GenState) (r0 r1 r2 r3 : Nat) (now : Int) :
    (NewCrypto s r0 r1 r2 r3 now).1.nodeRand < 2 ^ 16 := by
  rw [NewCrypto_fst]
  show beUint32Of r0 r1 r2 r3 &&& 0xffff < 2 ^ 16
  rw [land_0xffff]; exact Nat.mod_lt _ (by norm_num)

theorem NodeId_New (s : GenState) (rnd : Nat) (now : Int) (hn : s.nodeRand < 2 ^ 16) :
    NodeId (New s rnd now).1 = NodeId s := by
  rw [NodeId_closed, NodeId_closed, New_csan_closed s rnd now hn]
  obtain ⟨e1, e2, -⟩ := repackSum_bits (s.clockSeqAndNode / 2 ^ 61 % 2 ^ 3)
    ((s.clockSeq + 1) % 2 ^ 13) (s.clockSeqAndNode / 2 ^ 16 % 2 ^ 32)
    (if (s.clockSeq + 1) % 2 ^ 13 = 0 then rnd % 0x10000 else s.nodeRand)
    (Nat.mod_lt _ (by norm_num)) (Nat.mod_lt _ (by norm_num))
    (Nat.mod_lt _ (by norm_num)) (by split <;> omega)
  rw [e1, e2]
  have e3 : s.clockSeqAndNode / 2 ^ 16 / 2 ^ 26 = s.clockSeqAndNode / 2 ^ 42 := by
    rw [Nat.div_div_eq_div_mul]; norm_num
  omega

theorem NodeId_NewCrypto (s : GenState) (r0 r1 r2 r3 : Nat) (now : Int) :
    NodeId (NewCrypto s r0 r1 r2 r3 now).1 = NodeId s := by
  rw [NodeId_closed, NodeId_closed, NewCrypto_csan_closed]
  obtain ⟨e1, e2, -⟩ := repackSum_bits (s.clockSeqAndNode / 2 ^ 61 % 2 ^ 3)
    (beUint32Of r0 r1 r2 r3 / 2 ^ 16 % 2 ^ 13) (s.clockSeqAndNode / 2 ^ 16 % 2 ^ 32)
    (beUint32Of r0 r1 r2 r3 % 2 ^ 16)
    (Nat.mod_lt _ (by norm_num)) (Nat.mod_lt _ (by norm_num))
    (Nat.mod_lt _ (by norm_num)) (Nat.mod_lt _ (by norm_num))
  rw [e1, e2]
  have e3 : s.clockSeqAndNode / 2 ^ 16 / 2 ^ 26 = s.clockSeqAndNode / 2 ^ 42 := by
    rw [Nat.div_div_eq_div_mul]; norm_num
  omega

theorem NodeId_SetNodeId (s : GenState) (v : Nat) :
    NodeId (SetNodeId s v).1 = v % 2 ^ 30 := by
  rw [NodeId_closed, SetNodeId_csan_closed]
  obtain ⟨e1, e2, -, -, -⟩ := setSum_bits (s.clockSeqAndNode / 2 ^ 48 % 2 ^ 16)
    (v / 2 ^ 24 % 2 ^ 6) (s.clockSeqAndNode / 2 ^ 40 % 2 ^ 2) (v % 2 ^ 24)
    (s.clockSeqAndNode % 2 ^ 16)
    (Nat.mod_lt _ (by norm_num)) (Nat.mod_lt _ (by norm_num))
    (Nat.mod_lt _ (by norm_num)) (Nat.mod_lt _ (by norm_num)) (Nat.mod_lt _ (by norm_num))
  rw [e1, e2]
  omega

theorem Steps_preserve (s t : GenState) (h : Steps s t) (hn : s.nodeRand < 2 ^ 16) :
    NodeId t = NodeId s ∧ t.nodeRand < 2 ^ 16 := by
  induction h with
  | refl => exact ⟨rfl, hn⟩
  | fast t rnd now h ih =>
      exact ⟨(NodeId_New t rnd now ih.2).trans ih.1, New_nodeRand_lt t rnd now ih.2⟩
  | crypto t r0 r1 r2 r3 now h ih =>
      exact ⟨(NodeId_NewCrypto t r0 r1 r2 r3 now).trans ih.1,
        NewCrypto_nodeRand_lt t r0 r1 r2 r3 now⟩

theorem New_csan_lt (s : GenState) (rnd : Nat) (now : Int) (hn : s.nodeRand < 2 ^ 16) :
    (New s rnd now).1.clockSeqAndNode < 2 ^ 64 := by
  rw [New_csan_closed s rnd now hn]
  have h1 : s.clockSeqAndNode / 2 ^ 61 % 2 ^ 3 < 2 ^ 3 := Nat.mod_lt _ (by norm_num)
  have h2 : (s.clockSeq + 1) % 2 ^ 13 < 2 ^ 13 := Nat.mod_lt _ (by norm_num)
  have h3 : s.clockSeqAndNode / 2 ^ 16 % 2 ^ 32 < 2 ^ 32 := Nat.mod_lt _ (by norm_num)
  have h4 : (if (s.clockSeq + 1) % 2 ^ 13 = 0 then rnd % 0x10000 else s.nodeRand)
      < 2 ^ 16 := by
    split <;> omega
  omega

theorem NewCrypto_csan_lt (s : GenState) (r0 r1 r2 r3 : Nat) (now : Int) :
    (NewCrypto s r0 r1 r2 r3 now).1.clockSeqAndNode < 2 ^ 64 := by
  rw [NewCrypto_csan_closed]
  have h1 : s.clockSeqAndNode / 2 ^ 61 % 2 ^ 3 < 2 ^ 3 := Nat.mod_lt _ (by norm_num)
  have h2 : beUint32Of r0 r1 r2 r3 / 2 ^ 16 % 2 ^ 13 < 2 ^ 13 := Nat.mod_lt _ (by norm_num)
  have h3 : s.clockSeqAndNode / 2 ^ 16 % 2 ^ 32 < 2 ^ 32 := Nat.mod_lt _ (by norm_num)
  have h4 : beUint32Of r0 r1 r2 r3 % 2 ^ 16 < 2 ^ 16 := Nat.mod_lt _ (by norm_num)
  omega

theorem New_snd_eq (s : GenState) (rnd : Nat) (now : Int) :
    (New s rnd now).2
      = timeBytes now ++ putUint64BE (New s rnd now).1.clockSeqAndNode := rfl

theorem NewCrypto_snd_eq (s : GenState) (r0 r1 r2 r3 : Nat) (now : Int) :
    (NewCrypto s r0 r1 r2 r3 now).2
      = timeBytes now ++ putUint64BE (NewCrypto s r0 r1 r2 r3 now).1.clockSeqAndNode := rfl

theorem UUIDNodeId_New (s : GenState) (rnd : Nat) (now : Int)
    (hn : s.nodeRand < 2 ^ 16) :
    UUID.NodeId (New s rnd now).2 = NodeId s := by
  rw [New_snd_eq, UUIDNodeId_gen now _ (New_csan_lt s rnd now hn),
    ← NodeId_closed ((New s rnd now).1)]
  exact NodeId_New s rnd now hn

theorem UUIDNodeId_NewCrypto (s : GenState) (r0 r1 r2 r3 : Nat) (now : Int) :
    UUID.NodeId (NewCrypto s r0 r1 r2 r3 now).2 = NodeId s := by
  rw [NewCrypto_snd_eq, UUIDNodeId_gen now _ (NewCrypto_csan_lt s r0 r1 r2 r3 now),
    ← NodeId_closed ((NewCrypto s r0 r1 r2 r3 now).1)]
  exact NodeId_NewCrypto s r0 r1 r2 r3 now

theorem clockBits_gen (now : Int) (w : Nat) :
    byteAt (timeBytes now ++ putUint64BE w) 8 % 2 ^ 5 * 2 ^ 8 +
      byteAt (timeBytes now ++ putUint64BE w) 9 = w / 2 ^ 48 % 2 ^ 13 := by
  rw [byteAt_gen8, byteAt_gen9]
  simp only [Nat.shiftRight_eq_div_pow]
  have e : w / 2 ^ 48 / 2 ^ 8 = w / 2 ^ 56 := by
    rw [Nat.div_div_eq_div_mul]; norm_num
  omega

theorem uuid_clockBits (s : GenState) (rnd : Nat) (now : Int)
    (hn : s.nodeRand < 2 ^ 16) :
    byteAt (New s rnd now).2 8 % 2 ^ 5 * 2 ^ 8 + byteAt (New s rnd now).2 9
      = (s.clockSeq + 1) % 2 ^ 13 := by
  rw [New_snd_eq, clockBits_gen, New_csan_closed s rnd now hn]
  obtain ⟨-, -, e3⟩ := repackSum_bits (s.clockSeqAndNode / 2 ^ 61 % 2 ^ 3)
    ((s.clockSeq + 1) % 2 ^ 13) (s.clockSeqAndNode / 2 ^ 16 % 2 ^ 32)
    (if (s.clockSeq + 1) % 2 ^ 13 = 0 then rnd % 0x10000 else s.nodeRand)
    (Nat.mod_lt _ (by norm_num)) (Nat.mod_lt _ (by norm_num))
    (Nat.mod_lt _ (by norm_num)) (by split <;> omega)
  exact e3


theorem byte8_top3 (now : Int) (w : Nat) (hw : w / 2 ^ 61 = 1) :
    byteAt (timeBytes now ++ putUint64BE w) 8 >>> 5 = 1 := by
  rw [byteAt_gen8]
  simp only [Nat.shiftRight_eq_div_pow]
  have e : w / 2 ^ 56 / 2 ^ 5 = w / 2 ^ 61 := by
    rw [Nat.div_div_eq_div_mul]; norm_num
  omega

/-!
The claims.
-/

/-- C9: for every signed 64-bit nanosecond timestamp `t`,
`toUnixNano (fromUnixNano t) = (t / 100) * 100` in exact integer arithmetic,
with `/` the truncated (toward-zero) division of Go `int64`. -/
theorem c9_timestamp_roundtrip (t : Int) (h1 : -(2 ^ 63) ≤ t) (h2 : t < 2 ^ 63) :
    toUnixNano (fromUnixNano t) = t.tdiv 100 * 100 := by
  unfold toUnixNano fromUnixNano
  ring

theorem c9_witness :
    -(2 ^ 63 : Int) ≤ 1444444444000000555 ∧ (1444444444000000555 : Int) < 2 ^ 63 ∧
    toUnixNano (fromUnixNano 1444444444000000555)
      = (1444444444000000555 : Int).tdiv 100 * 100 :=
  ⟨by norm_num, by norm_num,
    c9_timestamp_roundtrip 1444444444000000555 (by norm_num) (by norm_num)⟩

/-- C1 (counterexample to the claimed bit pattern): at a concrete reachable
state, the top three bits of byte 8 of a generated identifier read `001`
(value 1), not `100` (value 4) as the claim asserts, for both generators. -/
theorem c1_counterexample :
    byteAt (New (init 0 0 0 0 0 0 0 0) 0 0).2 8 >>> 5 ≠ 4 ∧
    byteAt (New (init 0 0 0 0 0 0 0 0) 0 0).2 8 >>> 5 = 1 ∧
    byteAt (NewCrypto (init 0 0 0 0 0 0 0 0) 0 0 0 0 0).2 8 >>> 5 ≠ 4 := by
  decide

/-- C1 (amended): every identifier returned by `New` or `NewCrypto`, from any
reachable generator state, carries the variant marker encoded as bit pattern
`001` in the top 3 bits of byte 8 (clock_seq_hi_and_reserved), as set once at
initialization and preserved by every repack of the 64-bit state. -/
theorem c1_variant_marker (s : GenState) (hs : Reachable s)
    (rnd r0 r1 r2 r3 : Nat) (now : Int) :
    byteAt (New s rnd now).2 8 >>> 5 = 1 ∧
    byteAt (NewCrypto s r0 r1 r2 r3 now).2 8 >>> 5 = 1 := by
  have hInv := reachable_inv s hs
  constructor
  · rw [New_snd_eq]
    exact byte8_top3 now _ (inv_New s rnd now hInv).1
  · rw [NewCrypto_snd_eq]
    exact byte8_top3 now _ (inv_NewCrypto s r0 r1 r2 r3 now hInv).1

theorem c1_witness :
    byteAt (New (init 0 0 0 0 0 0 0 0) 0 0).2 8 >>> 5 = 1 ∧
    byteAt (NewCrypto (init 0 0 0 0 0 0 0 0) 0 0 0 0 0).2 8 >>> 5 = 1 :=
  c1_variant_marker (init 0 0 0 0 0 0 0 0)
    (Reachable.boot 0 0 0 0 0 0 0 0 (by decide) (by decide) (by decide) (by decide)
      (by decide) (by decide) (by decide) (by decide)) 0 0 0 0 0 0

/-- C2: for every identifier returned by `New` or `NewCrypto` from any
reachable generator state, the `Version()` accessor returns 1 and the
`Variant()` accessor returns 1. -/
theorem c2_version_variant (s : GenState) (hs : Reachable s)
    (rnd r0 r1 r2 r3 : Nat) (now : Int) :
    UUID.Version (New s rnd now).2 = 1 ∧
    UUID.Variant (New s rnd now).2 = 1 ∧
    UUID.Version (NewCrypto s r0 r1 r2 r3 now).2 = 1 ∧
    UUID.Variant (NewCrypto s r0 r1 r2 r3 now).2 = 1 := by
  have hInv := reachable_inv s hs
  refine ⟨?_, ?_, ?_, ?_⟩
  · rw [New_snd_eq]; exact Version_gen now _
  · rw [New_snd_eq]; exact Variant_gen now _ (inv_New s rnd now hInv).1
  · rw [NewCrypto_snd_eq]; exact Version_gen now _
  · rw [NewCrypto_snd_eq]
    exact Variant_gen now _ (inv_NewCrypto s r0 r1 r2 r3 now hInv).1

theorem c2_witness :
    UUID.Version (New (init 0 0 0 0 0 0 0 0) 0 0).2 = 1 ∧
    UUID.Variant (New (init 0 0 0 0 0 0 0 0) 0 0).2 = 1 ∧
    UUID.Version (NewCrypto (init 0 0 0 0 0 0 0 0) 0 0 0 0 0).2 = 1 ∧
    UUID.Variant (NewCrypto (init 0 0 0 0 0 0 0 0) 0 0 0 0 0).2 = 1 :=
  c2_version_variant (init 0 0 0 0 0 0 0 0)
    (Reachable.boot 0 0 0 0 0 0 0 0 (by decide) (by decide) (by decide) (by decide)
      (by decide) (by decide) (by decide) (by decide)) 0 0 0 0 0 0

/-- C3: two consecutive `New` calls, from any generator state (`nodeRand` is a
`uint16` in the source, hence the bound), return identifiers that differ as
full 16-byte values, even when both calls observe the same timestamp: the
clock sequence is incremented modulo 8192 on every call, so the
clock-sequence bytes always change. -/
theorem c3_consecutive_distinct (s : GenState) (hn : s.nodeRand < 2 ^ 16)
    (rnd1 rnd2 : Nat) (now1 now2 : Int) :
    (New (New s rnd1 now1).1 rnd2 now2).2 ≠ (New s rnd1 now1).2 := by
  intro heq
  have h1 := uuid_clockBits s rnd1 now1 hn
  have h2 := uuid_clockBits (New s rnd1 now1).1 rnd2 now2
    (New_nodeRand_lt s rnd1 now1 hn)
  rw [heq, h1, New_clockSeq_eq] at h2
  omega

theorem c3_witness :
    (New (New ⟨0, 0, 0⟩ 0 0).1 0 0).2 ≠ (New (⟨0, 0, 0⟩ : GenState) 0 0).2 :=
  c3_consecutive_distinct ⟨0, 0, 0⟩ (by decide) 0 0 0 0

/-- C4: for every `v < 2^30`, `SetNodeId v` succeeds, `NodeId` then returns
`v`, and every identifier generated afterwards (through any number of `New`
or `NewCrypto` calls) yields `v` from its `NodeId()` accessor. -/
theorem c4_nodeId_roundtrip (s : GenState) (v : Nat) (hv : v < 2 ^ 30)
    (hn : s.nodeRand < 2 ^ 16) :
    (SetNodeId s v).2 = false ∧
    NodeId (SetNodeId s v).1 = v ∧
    ∀ t, Steps (SetNodeId s v).1 t →
      NodeId t = v ∧
      (∀ rnd now, UUID.NodeId (New t rnd now).2 = v) ∧
      (∀ r0 r1 r2 r3 now, UUID.NodeId (NewCrypto t r0 r1 r2 r3 now).2 = v) := by
  have hid : NodeId (SetNodeId s v).1 = v := by
    rw [NodeId_SetNodeId]; omega
  refine ⟨?_, hid, ?_⟩
  · have h30 : v >>> 30 = 0 := by
      rw [Nat.shiftRight_eq_div_pow]; omega
    show decide (v >>> 30 ≠ 0) = false
    rw [h30]; decide
  · intro t ht
    have hp := Steps_preserve _ t ht (show (SetNodeId s v).1.nodeRand < 2 ^ 16 from hn)
    refine ⟨hp.1.trans hid, fun rnd now => ?_, fun r0 r1 r2 r3 now => ?_⟩
    · exact (UUIDNodeId_New t rnd now hp.2).trans (hp.1.trans hid)
    · exact (UUIDNodeId_NewCrypto t r0 r1 r2 r3 now).trans (hp.1.trans hid)

theorem c4_witness :
    (5 : Nat) < 2 ^ 30 ∧
    (SetNodeId ⟨0, 0, 0⟩ 5).2 = false ∧
    NodeId (SetNodeId (⟨0, 0, 0⟩ : GenState) 5).1 = 5 ∧
    UUID.NodeId (New (SetNodeId (⟨0, 0, 0⟩ : GenState) 5).1 0 0).2 = 5 := by
  have h := c4_nodeId_roundtrip ⟨0, 0, 0⟩ 5 (by decide) (by decide)
  exact ⟨by decide, h.1, h.2.1,
    ((h.2.2 (SetNodeId ⟨0, 0, 0⟩ 5).1 (Steps.refl _)).2.1 0 0)⟩

/-- C5: `SetNodeId v` reports an error exactly when the top two bits of the
32-bit `v` are non-zero, yet the truncated assignment always takes effect:
`NodeId` afterwards returns `v &&& 0x3fffffff`, while the clock sequence, the
churning low 16 node bits and the local/multicast marker bits of the packed
state are preserved. -/
theorem c5_setNodeId_truncation (s : GenState) (v : Nat) (hv : v < 2 ^ 32) :
    ((SetNodeId s v).2 = true ↔ v >>> 30 ≠ 0) ∧
    NodeId (SetNodeId s v).1 = v &&& 0x3fffffff ∧
    (SetNodeId s v).1.clockSeq = s.clockSeq ∧
    (SetNodeId s v).1.nodeRand = s.nodeRand ∧
    (SetNodeId s v).1.clockSeqAndNode &&& 0xffff03000000ffff
      = s.clockSeqAndNode &&& 0xffff03000000ffff := by
  refine ⟨?_, ?_, rfl, rfl, ?_⟩
  · show decide (v >>> 30 ≠ 0) = true ↔ v >>> 30 ≠ 0
    simp
  · rw [NodeId_SetNodeId, land_0x3fffffff]
  · rw [SetNodeId_csan_closed, land_setMask, land_setMask]
    obtain ⟨-, -, e3, e4, e5⟩ := setSum_bits (s.clockSeqAndNode / 2 ^ 48 % 2 ^ 16)
      (v / 2 ^ 24 % 2 ^ 6) (s.clockSeqAndNode / 2 ^ 40 % 2 ^ 2) (v % 2 ^ 24)
      (s.clockSeqAndNode % 2 ^ 16)
      (Nat.mod_lt _ (by norm_num)) (Nat.mod_lt _ (by norm_num))
      (Nat.mod_lt _ (by norm_num)) (Nat.mod_lt _ (by norm_num))
      (Nat.mod_lt _ (by norm_num))
    rw [e3, e4, e5]

theorem c5_witness :
    (0xc2345678 : Nat) < 2 ^ 32 ∧
    (SetNodeId ⟨0, 0, 0⟩ 0xc2345678).2 = true ∧
    NodeId (SetNodeId (⟨0, 0, 0⟩ : GenState) 0xc2345678).1 = 0x02345678 := by
  have h := c5_setNodeId_truncation ⟨0, 0, 0⟩ 0xc2345678 (by norm_num)
  exact ⟨by norm_num, h.1.mpr (by decide), h.2.1.trans (by decide)⟩


/-- C6 (counterexample): the claim says the `Variant()` accessor maps bit
pattern `10x` to 1, and in particular that the example identifier
(byte 8 = 0x80, pattern `100`) reports variant 1; the code returns the raw
top-3-bit value, which is 4 for the example (the repository test asserts 4). -/
theorem c6_counterexample :
    UUID.Variant exampleUUID ≠ 1 ∧ UUID.Variant exampleUUID = 4 := by
  decide

/-- C6 (amended): for every 16-byte identifier, `Variant()` returns the
numeric value of the top 3 bits of byte 8: 0–3 for pattern `0xx`, 4 for
`100`, 5 for `101`, 6 for `110` and 7 for `111`; the identifier built from
the example bytes (byte 8 = 0x80, pattern `100`) reports variant 4. -/
theorem c6_variant_accessor (u : List Nat) (h8 : byteAt u 8 < 256)
    (h9 : byteAt u 9 < 256) :
    UUID.Variant u = byteAt u 8 / 2 ^ 5 ∧
    (byteAt u 8 < 128 → UUID.Variant u ≤ 3) ∧
    (128 ≤ byteAt u 8 → byteAt u 8 < 160 → UUID.Variant u = 4) ∧
    (160 ≤ byteAt u 8 → byteAt u 8 < 192 → UUID.Variant u = 5) ∧
    (192 ≤ byteAt u 8 → byteAt u 8 < 224 → UUID.Variant u = 6) ∧
    (224 ≤ byteAt u 8 → UUID.Variant u = 7) ∧
    UUID.Variant exampleUUID = 4 := by
  have h := Variant_top3 u h8 h9
  refine ⟨h, ?_, ?_, ?_, ?_, ?_, by decide⟩ <;> intros <;> rw [h] <;> omega

theorem c6_witness :
    byteAt exampleUUID 8 < 256 ∧ byteAt exampleUUID 9 < 256 ∧
    UUID.Variant exampleUUID = byteAt exampleUUID 8 / 2 ^ 5 :=
  ⟨by decide, by decide, (c6_variant_accessor exampleUUID (by decide) (by decide)).1⟩

/-- C10: text parsing performs no semantic validation of the version or
variant fields: the all-zero 32-digit string is accepted and produces an
identifier whose `Version()` and `Variant()` are 0, not 1, so parsed
identifiers need not satisfy the v1 invariants generated ones carry. -/
theorem c10_no_semantic_validation :
    NewFromString (List.replicate 32 '0') = some (List.replicate 16 0) ∧
    UUID.Version (List.replicate 16 0) = 0 ∧
    UUID.Variant (List.replicate 16 0) = 0 ∧
    UUID.Version (List.replicate 16 0) ≠ 1 ∧
    UUID.Variant (List.replicate 16 0) ≠ 1 := by
  decide


/-!
Hex decoding and the text round trip.
-/

theorem fromHexChar_lt (c : Char) (n : Nat) (h : fromHexChar c = some n) : n < 16 := by
  unfold fromHexChar at h
  split at h
  · next hc =>
      simp at h
      omega
  · split at h
    · next hc =>
        simp at h
        omega
    · split at h
      · next hc =>
          simp at h
          omega
      · exact absurd h (by simp)

theorem isSome_bind_some {α β : Type} (o : Option α) (f : α → β) :
    (o.bind fun x => some (f x)).isSome = o.isSome := by
  cases o <;> rfl

theorem hexDecode_isSome_iff : ∀ l : List Char,
    (hexDecode l).isSome ↔ l.length % 2 = 0 ∧ ∀ c ∈ l, (fromHexChar c).isSome
  | [] => by simp [hexDecode]
  | [a] => by simp [hexDecode]
  | a :: b :: rest => by
      have ih := hexDecode_isSome_iff rest
      cases hfa : fromHexChar a with
      | none => simp [hexDecode, hfa, List.forall_mem_cons]
      | some hi =>
          cases hfb : fromHexChar b with
          | none => simp [hexDecode, hfa, hfb, List.forall_mem_cons]
          | some lo =>
              rw [show hexDecode (a :: b :: rest)
                  = (hexDecode rest).bind fun tail => some ((hi <<< 4 ||| lo) :: tail) from by
                    cases hr : hexDecode rest <;> simp [hexDecode, hfa, hfb, hr],
                isSome_bind_some, ih]
              simp only [List.forall_mem_cons, List.length_cons]
              constructor
              · rintro ⟨h1, h2⟩
                exact ⟨by omega, by simp [hfa], by simp [hfb], h2⟩
              · rintro ⟨h1, -, -, h2⟩
                exact ⟨by omega, h2⟩

theorem hexDecode_some_length : ∀ (l : List Char) (u : List Nat),
    hexDecode l = some u → u.length = l.length / 2
  | [] => by
      intro u h
      simp [hexDecode] at h
      subst h
      rfl
  | [a] => by
      intro u h
      simp [hexDecode] at h
  | a :: b :: rest => by
      intro u h
      cases hfa : fromHexChar a with
      | none => simp [hexDecode, hfa] at h
      | some hi =>
          cases hfb : fromHexChar b with
          | none => simp [hexDecode, hfa, hfb] at h
          | some lo =>
              cases hr : hexDecode rest with
              | none => simp [hexDecode, hfa, hfb, hr] at h
              | some tail =>
                  have ih := hexDecode_some_length rest tail hr
                  simp [hexDecode, hfa, hfb, hr] at h
                  subst h
                  simp only [List.length_cons]
                  omega

theorem hexDecode_some_lt : ∀ (l : List Char) (u : List Nat),
    hexDecode l = some u → ∀ x ∈ u, x < 256
  | [] => by
      intro u h
      simp [hexDecode] at h
      subst h
      simp
  | [a] => by
      intro u h
      simp [hexDecode] at h
  | a :: b :: rest => by
      intro u h x hx
      cases hfa : fromHexChar a with
      | none => simp [hexDecode, hfa] at h
      | some hi =>
          cases hfb : fromHexChar b with
          | none => simp [hexDecode, hfa, hfb] at h
          | some lo =>
              cases hr : hexDecode rest with
              | none => simp [hexDecode, hfa, hfb, hr] at h
              | some tail =>
                  have ih := hexDecode_some_lt rest tail hr
                  have hhi := fromHexChar_lt a hi hfa
                  have hlo := fromHexChar_lt b lo hfb
                  simp [hexDecode, hfa, hfb, hr] at h
                  subst h
                  rcases List.mem_cons.mp hx with rfl | hx2
                  · rw [lor_two_pow_add hi lo 4 (by omega)]
                    omega
                  · exact ih x hx2

theorem fromHexChar_hexDigit (n : Nat) (h : n < 16) : fromHexChar (hexDigit n) = some n := by
  interval_cases n <;> decide

theorem hexDecode_hex : ∀ u : List Nat, (∀ b ∈ u, b < 256) → hexDecode (Hex u) = some u
  | [], _ => by simp [Hex, hexDecode]
  | b :: u, h => by
      have hb : b < 256 := h b (by simp)
      have ih := hexDecode_hex u fun x hx => h x (by simp [hx])
      have h1 : b >>> 4 < 16 := by
        rw [Nat.shiftRight_eq_div_pow]; omega
      have h2 : b &&& 0x0f < 16 := by
        rw [land_0x0f]; omega
      show hexDecode (hexDigit (b >>> 4) :: hexDigit (b &&& 0x0f) :: Hex u) = _
      simp [hexDecode, fromHexChar_hexDigit _ h1, fromHexChar_hexDigit _ h2, ih]
      rw [land_0x0f, Nat.shiftRight_eq_div_pow, lor_two_pow_add _ _ _ (by omega)]
      omega

theorem hexDigit_mem16 (n : Nat) (h : n < 16) : hexDigit n ∈ hextable := by
  interval_cases n <;> decide

theorem Hex_mem (u : List Nat) (hb : ∀ b ∈ u, b < 256) : ∀ c ∈ Hex u, c ∈ hextable := by
  intro c hc
  simp only [Hex, List.mem_flatMap] at hc
  obtain ⟨b, hbu, hcb⟩ := hc
  have hblt := hb b hbu
  have h1 : b >>> 4 < 16 := by
    rw [Nat.shiftRight_eq_div_pow]; omega
  have h2 : b &&& 0x0f < 16 := by
    rw [land_0x0f]; omega
  simp at hcb
  rcases hcb with rfl | rfl
  · exact hexDigit_mem16 _ h1
  · exact hexDigit_mem16 _ h2

theorem Hex_length : ∀ u : List Nat, (Hex u).length = 2 * u.length
  | [] => rfl
  | b :: u => by
      show ((hexDigit (b >>> 4) :: hexDigit (b &&& 0x0f) :: Hex u).length) = _
      simp only [List.length_cons, Hex_length u, List.length_cons]
      omega

theorem hexchar_ne_dash (c : Char) (h : c ∈ hextable) : c ≠ '-' := by
  intro heq
  subst heq
  exact absurd h (by decide)

theorem filter_hex_eq (l : List Char) (h : ∀ c ∈ l, c ∈ hextable) :
    (l.filter fun c => c ≠ '-') = l := by
  rw [List.filter_eq_self]
  intro a ha
  have h1 : a ≠ '-' := hexchar_ne_dash a (h a ha)
  simp [h1]

theorem take_drop_partition (l : List Char) (hl : l.length = 32) :
    l.take 8 ++ (l.drop 8).take 4 ++ (l.drop 12).take 4 ++ (l.drop 16).take 4 ++
      (l.drop 20).take 12 = l := by
  have h20 : (l.drop 20).take 12 = l.drop 20 :=
    List.take_of_length_le (by rw [List.length_drop]; omega)
  have e16 : l.drop 20 = (l.drop 16).drop 4 := by rw [List.drop_drop]
  have e12 : l.drop 16 = (l.drop 12).drop 4 := by rw [List.drop_drop]
  have e8 : l.drop 12 = (l.drop 8).drop 4 := by rw [List.drop_drop]
  simp only [List.append_assoc]
  rw [h20, e16, List.take_append_drop, e12, List.take_append_drop, e8,
    List.take_append_drop, List.take_append_drop]

theorem filter_UUIDString (u : List Nat) (hlen : u.length = 16)
    (hb : ∀ b ∈ u, b < 256) :
    ((UUIDString u).filter fun c => c ≠ '-') = Hex u := by
  have hmem := Hex_mem u hb
  have h32 : (Hex u).length = 32 := by rw [Hex_length]; omega
  have hdash : ((['-'] : List Char).filter fun c => c ≠ '-') = [] := rfl
  simp only [UUIDString, List.filter_append]
  rw [hdash,
    filter_hex_eq _ (fun c hc => hmem c (List.mem_of_mem_take hc)),
    filter_hex_eq _ (fun c hc => hmem c (List.mem_of_mem_drop (List.mem_of_mem_take hc))),
    filter_hex_eq _ (fun c hc => hmem c (List.mem_of_mem_drop (List.mem_of_mem_take hc))),
    filter_hex_eq _ (fun c hc => hmem c (List.mem_of_mem_drop (List.mem_of_mem_take hc))),
    filter_hex_eq _ (fun c hc => hmem c (List.mem_of_mem_drop (List.mem_of_mem_take hc)))]
  simp only [List.append_nil]
  exact take_drop_partition (Hex u) h32

/-- C7: `NewFromString s` succeeds exactly when the text remaining after
removing every dash is 32 valid hexadecimal digits (any other digit count and
any non-hex character fail; dashes in any position and quantity are
accepted), and every accepted input yields the 16 bytes decoded from those
digits. -/
theorem c7_parse_characterization (s : List Char) :
    ((NewFromString s).isSome ↔
      ((s.filter fun c => c ≠ '-').length = 32 ∧
        ∀ c ∈ s.filter fun c => c ≠ '-', (fromHexChar c).isSome)) ∧
    ∀ u, NewFromString s = some u →
      u.length = 16 ∧ (∀ x ∈ u, x < 256) ∧
      hexDecode (s.filter fun c => c ≠ '-') = some u := by
  constructor
  · simp only [NewFromString]
    split
    · next hcond =>
        simp only [hexDecodedLen] at hcond
        constructor
        · intro h
          simp at h
        · rintro ⟨hlen, -⟩
          rw [hlen] at hcond
          exact absurd rfl hcond
    · next hcond =>
        have hc2 : ((s.filter fun c => c ≠ '-').length : Nat) / 2 = 16 := by
          have := not_not.mp hcond
          simpa [hexDecodedLen] using this
        rw [hexDecode_isSome_iff]
        constructor
        · rintro ⟨h1, h2⟩
          exact ⟨by omega, h2⟩
        · rintro ⟨h1, h2⟩
          exact ⟨by omega, h2⟩
  · intro u h
    simp only [NewFromString] at h
    split at h
    · exact absurd h (by simp)
    · next hcond =>
        have hc2 : ((s.filter fun c => c ≠ '-').length : Nat) / 2 = 16 := by
          have := not_not.mp hcond
          simpa [hexDecodedLen] using this
        have hlen := hexDecode_some_length _ u h
        have heven : ((s.filter fun c => c ≠ '-').length : Nat) % 2 = 0 :=
          ((hexDecode_isSome_iff _).mp (by rw [h]; rfl)).1
        refine ⟨by omega, hexDecode_some_lt _ u h, h⟩

theorem c7_witness :
    (List.replicate 16 (0 : Nat)).length = 16 ∧
    (∀ x ∈ List.replicate 16 (0 : Nat), x < 256) ∧
    hexDecode ((List.replicate 32 '0').filter fun c => c ≠ '-')
      = some (List.replicate 16 0) :=
  (c7_parse_characterization (List.replicate 32 '0')).2 (List.replicate 16 0) (by decide)

/-- C8: for every 16-byte identifier `u`, `String()` returns its lowercase
hex digits (characters of the `encoding/hex` table) in the dash-separated
8-4-4-4-12 grouping, `NewFromString (String u)` succeeds and returns an
identifier byte-for-byte equal to `u`, and the dash-stripped 32-digit form
parses to the same identifier. -/
theorem c8_string_roundtrip (u : List Nat) (hlen : u.length = 16)
    (hb : ∀ b ∈ u, b < 256) :
    (Hex u).length = 32 ∧
    (∀ c ∈ Hex u, c ∈ hextable) ∧
    (UUIDString u
      = (Hex u).take 8 ++ '-' :: (((Hex u).drop 8).take 4 ++ '-' ::
          (((Hex u).drop 12).take 4 ++ '-' :: (((Hex u).drop 16).take 4 ++ '-' ::
            ((Hex u).drop 20).take 12)))) ∧
    NewFromString (UUIDString u) = some u ∧
    NewFromString (Hex u) = some u := by
  have h32 : (Hex u).length = 32 := by rw [Hex_length]; omega
  have hmem := Hex_mem u hb
  have hdec : hexDecode (Hex u) = some u := hexDecode_hex u hb
  refine ⟨h32, hmem, ?_, ?_, ?_⟩
  · simp [UUIDString, List.append_assoc]
  · simp only [NewFromString]
    rw [filter_UUIDString u hlen hb, h32]
    simp [hexDecodedLen, hdec]
  · simp only [NewFromString]
    rw [filter_hex_eq _ hmem, h32]
    simp [hexDecodedLen, hdec]

theorem c8_witness :
    NewFromString (UUIDString exampleUUID) = some exampleUUID ∧
    NewFromString (Hex exampleUUID) = some exampleUUID :=
  (c8_string_roundtrip exampleUUID (by decide) (by decide)).2.2.2

end Uuid
